import Mathlib

set_option autoImplicit false
set_option maxHeartbeats 1000000

/-!
Verification of the coordination library in src/pabot/pabotlib.py.

The server class keeps four pieces of state: a lock table (name to
owner/count), a reservation map (caller to the data of the value set it
holds, or the Python value None), a shared key/value store, and the pool
of value sets parsed from a configuration file.  Python dictionaries are
modelled as association lists in insertion order (the order Python 3
dictionaries iterate in); updating an existing key keeps its position,
inserting a fresh key appends at the end, exactly like CPython.  Python
values that flow through the store are modelled by `PValue` (strings,
integers and the parsed tag lists).  Fallible operations return `Option`
or carry an explicit error constructor; an operation that raises leaves
behind exactly the mutations the Python code performed before the raise.

String helpers used by the source (`str.split`, `str.strip`,
`str.startswith`, `str.lower`) are re-implemented structurally on the
character list of the string so that every definition evaluates by
kernel reduction.
-/

/-- A Python value as it appears in the shared store and in value-set data:
a string, an integer, or a parsed list of tag strings. -/
inductive PValue : Type where
  | str (s : String)
  | int (i : Int)
  | tags (ts : List String)
deriving DecidableEq, Repr

/-- Data dictionary of one value set (`self._values[section]`). -/
abbrev VSData := List (String × PValue)

/-- The pool `self._values`: section name to its data dictionary. -/
abbrev Pool := List (String × VSData)

/-- The reservation map `self._owner_to_values`: caller id to the data it
holds, where `none` models the Python value None. -/
abbrev ResMap := List (String × Option VSData)

/-- The shared store `self._parallel_values`. -/
abbrev KVStore := List (String × PValue)

/-- The lock table `self._locks`: lock name to `[owner, count]`. -/
abbrev LockTable := List (String × String × Int)

/-- Python `d[k]` / `d.get(k)`: first entry with the given key. -/
def dictGet? {α : Type} (d : List (String × α)) (k : String) : Option α :=
  (d.find? (fun p => p.1 = k)).map (fun p => p.2)

/-- Python `d[k] = v`: replace in place if the key exists, else append. -/
def dictSet {α : Type} : List (String × α) → String → α → List (String × α)
  | [], k, v => [(k, v)]
  | p :: rest, k, v => if p.1 = k then (k, v) :: rest else p :: dictSet rest k v

/-- Python `del d[k]` (on a dictionary with unique keys). -/
def dictDel {α : Type} (d : List (String × α)) (k : String) : List (String × α) :=
  d.filter (fun p => ¬ p.1 = k)

/-! ### String helpers mirroring the Python string methods used -/

/-- Python `s.split(",")` on the character level. -/
def splitCommaChars : List Char → List (List Char)
  | [] => [[]]
  | c :: rest =>
    if c = ',' then [] :: splitCommaChars rest
    else
      match splitCommaChars rest with
      | g :: gs => (c :: g) :: gs
      | [] => [[c]]

/-- Python `s.split(",")`. -/
def splitComma (s : String) : List String :=
  (splitCommaChars s.data).map String.mk

/-- Python `s.strip()`: drop whitespace from both ends. -/
def pyStrip (s : String) : String :=
  String.mk (((s.data.dropWhile Char.isWhitespace).reverse.dropWhile
    Char.isWhitespace).reverse)

/-- Python `s.startswith(t)`. -/
def startswith (s t : String) : Bool :=
  t.data.isPrefixOf s.data

/-- Python `s.lower()` (on the ASCII keys the library passes in). -/
def pyLower (s : String) : String :=
  String.mk (s.data.map Char.toLower)

/-! ### The lock table (`_PabotLib.acquire_lock` etc., lines 71-90) -/

/-- `_PabotLib.acquire_lock(name, caller_id)`: returns False if the lock
exists with a different owner, otherwise creates/increments the entry and
returns True.  Second component is the table after the call. -/
def acquire_lock (L : LockTable) (name caller : String) : Bool × LockTable :=
  match dictGet? L name with
  | some oc =>
    if caller = oc.1 then (true, dictSet L name (oc.1, oc.2 + 1)) else (false, L)
  | none => (true, dictSet L name (caller, 1))

/-- `_PabotLib.release_lock(name, caller_id)`: `none` models the raised
KeyError / AssertionError (entry missing or owned by someone else); the
table is unchanged in that case because the raise precedes any mutation. -/
def release_lock (L : LockTable) (name caller : String) : Option LockTable :=
  match dictGet? L name with
  | none => none
  | some oc =>
    if oc.1 = caller then
      if oc.2 - 1 = 0 then some (dictDel L name)
      else some (dictSet L name (oc.1, oc.2 - 1))
    else none

/-- `_PabotLib.release_locks(caller_id)` under the Python 2 reading, where
`self._locks.keys()` is a list copy: every entry owned by the caller is
decremented, entries reaching zero are removed. -/
def release_locks (L : LockTable) (caller : String) : LockTable :=
  L.filterMap (fun e =>
    if e.2.1 = caller then
      if e.2.2 - 1 = 0 then none else some (e.1, e.2.1, e.2.2 - 1)
    else some e)

/-- `_PabotLib.release_locks(caller_id)` under Python 3, where
`self._locks.keys()` is a live view: deleting an entry changes the size of
the dictionary during iteration, so the next step of the `for` loop raises
RuntimeError.  `Except.error` carries the table left behind at the raise
(entries already visited are decremented, the zero-count entry is deleted,
the rest of the table is untouched). -/
def release_locks_py3 : LockTable → String → Except LockTable LockTable
  | [], _ => .ok []
  | e :: rest, caller =>
    if e.2.1 = caller then
      if e.2.2 - 1 = 0 then .error rest
      else
        match release_locks_py3 rest caller with
        | .ok r => .ok ((e.1, e.2.1, e.2.2 - 1) :: r)
        | .error r => .error ((e.1, e.2.1, e.2.2 - 1) :: r)
    else
      match release_locks_py3 rest caller with
      | .ok r => .ok (e :: r)
      | .error r => .error (e :: r)

/-! ### The value-set pool (`_PabotLib`, lines 40-124) -/

/-- The whole server state (`_PabotLib.__init__`). -/
structure PabotState where
  locks : LockTable
  ownerToValues : ResMap
  parallelValues : KVStore
  values : Pool
deriving DecidableEq, Repr

/-- Python dictionary equality on value-set data, as used by the `in`
test `self._values[k] not in self._owner_to_values.values()`: the two
dictionaries hold the same keys and map each key to an equal value. -/
def dictBeq (a b : VSData) : Bool :=
  (a.map (fun p => p.1)).all (fun k => decide (dictGet? a k = dictGet? b k)) &&
  (b.map (fun p => p.1)).all (fun k => decide (dictGet? a k = dictGet? b k))

/-- Python `x == d` for one reservation-map value `x` (which may be None)
against a data dictionary `d`: None never equals a dictionary. -/
def heldVal (x : Option VSData) (d : VSData) : Bool :=
  match x with
  | some e => dictBeq d e
  | none => false

/-- Python `d in self._owner_to_values.values()`. -/
def heldBy (res : ResMap) (d : VSData) : Bool :=
  res.any (fun p => heldVal p.2 d)

/-- The guard `caller_id in self._owner_to_values and
self._owner_to_values[caller_id] is not None`. -/
def hasReservation (res : ResMap) (caller : String) : Bool :=
  match dictGet? res caller with
  | some (some _) => true
  | _ => false

/-- The tag list of a value set: `self._values[k][self._TAGS_KEY]`.  Every
parsed value set carries the key `"tags"` with a tag-list value; the
default branch is never hit on states produced by `_parse_values`. -/
def vsTags (d : VSData) : List String :=
  match dictGet? d "tags" with
  | some (PValue.tags ts) => ts
  | _ => []

/-- Whether a value set has the well-formed `"tags"` entry the code
indexes into. -/
def hasTags (d : VSData) : Bool :=
  match dictGet? d "tags" with
  | some (PValue.tags _) => true
  | _ => false

/-- `all(tag in self._values[k][self._TAGS_KEY] for tag in tags)`. -/
def tagsMatch (d : VSData) (tags : List String) : Bool :=
  tags.all (fun t => decide (t ∈ vsTags d))

/-- Result of `_PabotLib.acquire_value_set`: the three raised errors, the
`(None, None)` try-again sentinel, or a successful assignment. -/
inductive AcqResult : Type where
  | errEmptyPool
  | errAlreadyReserved
  | errNoMatching
  | waitSentinel
  | assigned (name : String) (data : VSData)
deriving DecidableEq, Repr

/-- The `for valueset_key in self._values` loop of `acquire_value_set`:
first component is the `matching` flag, second the assignment found. -/
def scanSets (res : ResMap) (tags : List String) : Pool → Bool × Option (String × VSData)
  | [] => (false, none)
  | p :: rest =>
    if tagsMatch p.2 tags then
      if heldBy res p.2 then (true, (scanSets res tags rest).2)
      else (true, some p)
    else scanSets res tags rest

/-- `_PabotLib.acquire_value_set(caller_id, *tags)` (lines 92-110).  On an
error or on the sentinel the state is returned unchanged, mirroring the
Python control flow. -/
def acquire_value_set (st : PabotState) (caller : String) (tags : List String) :
    AcqResult × PabotState :=
  if st.values.isEmpty then (.errEmptyPool, st)
  else if hasReservation st.ownerToValues caller then (.errAlreadyReserved, st)
  else
    match scanSets st.ownerToValues tags st.values with
    | (_, some kd) =>
      (.assigned kd.1 kd.2,
        { st with ownerToValues := dictSet st.ownerToValues caller (some kd.2) })
    | (true, none) => (.waitSentinel, st)
    | (false, none) => (.errNoMatching, st)

/-- `_PabotLib.release_value_set(caller_id)` (lines 112-113): binds the
caller to None, it never deletes the key. -/
def release_value_set (st : PabotState) (caller : String) : PabotState :=
  { st with ownerToValues := dictSet st.ownerToValues caller none }

/-- `_PabotLib.disable_value_set(setname, caller_id)` (lines 115-117): the
reservation is cleared first; `del self._values[setname]` then raises
KeyError when the name is absent.  First component is `true` when the
KeyError is raised; the state component carries the mutations performed
before the raise. -/
def disable_value_set (st : PabotState) (setname caller : String) : Bool × PabotState :=
  let st1 := { st with ownerToValues := dictSet st.ownerToValues caller none }
  match dictGet? st1.values setname with
  | none => (true, st1)
  | some _ => (false, { st1 with values := dictDel st1.values setname })

/-- Errors of the two `get_value_from_set` variants.  `typeErr` models the
Python TypeError raised by `key not in None` when the caller is bound to
None in the reservation map. -/
inductive GetVError : Type where
  | noValueSetReserved
  | noValueForKey
  | typeErr
deriving DecidableEq, Repr

/-- `_PabotLib.get_value_from_set(key, caller_id)` (lines 119-124). -/
def get_value_from_set (st : PabotState) (key caller : String) : Except GetVError PValue :=
  match dictGet? st.ownerToValues caller with
  | none => .error .noValueSetReserved
  | some none => .error .typeErr
  | some (some d) =>
    match dictGet? d key with
    | none => .error .noValueForKey
    | some v => .ok v

/-- `PabotLib.get_value_from_set(key)` (lines 378-388), the client side:
works on the cached value set and lowercases the key first. -/
def get_value_from_set_client (valueset : Option VSData) (key : String) :
    Except GetVError PValue :=
  match valueset with
  | none => .error .noValueSetReserved
  | some d =>
    match dictGet? d (pyLower key) with
    | none => .error .noValueForKey
    | some v => .ok v

/-! ### Parsing (`_PabotLib._parse_values`, lines 49-63) -/

/-- One section as configparser hands it over: the option/value pairs of
the section (configparser already lowercases option names). -/
def parseData (opts : List (String × String)) : VSData :=
  let d : VSData := opts.foldl (fun acc kv => dictSet acc kv.1 (PValue.str kv.2)) []
  match dictGet? d "tags" with
  | some (PValue.str s) =>
    dictSet d "tags" (PValue.tags ((splitComma s).map pyStrip))
  | _ => dictSet d "tags" (PValue.tags [])

/-- `_parse_values`: every section becomes a value set; the `tags` option
is split on commas and stripped, a missing `tags` option yields `[]`. -/
def parse_values (sections : List (String × List (String × String))) : Pool :=
  sections.foldl (fun acc s => dictSet acc s.1 (parseData s.2)) []

/-- `_PabotLib.__init__(resourcefile)`. -/
def initState (sections : List (String × List (String × String))) : PabotState :=
  { locks := [], ownerToValues := [], parallelValues := [], values := parse_values sections }

/-! ### The shared key/value store (lines 65-69) -/

/-- `_PabotLib.get_parallel_value_for_key`: absent keys read as "". -/
def get_parallel_value_for_key (kv : KVStore) (key : String) : PValue :=
  (dictGet? kv key).getD (PValue.str "")

/-- `_PabotLib.set_parallel_value_for_key`. -/
def set_parallel_value_for_key (kv : KVStore) (key : String) (value : PValue) : KVStore :=
  dictSet kv key value

/-! ### State transitions of the value-set pool, for reachability -/

/-- The operations that touch the reservation map or the pool. -/
inductive VOp : Type where
  | acq (caller : String) (tags : List String)
  | rel (caller : String)
  | dis (setname caller : String)

/-- Effect of one operation on the server state: a raising operation
leaves behind exactly the mutations performed before the raise. -/
def applyVOp (st : PabotState) : VOp → PabotState
  | .acq c tags => (acquire_value_set st c tags).2
  | .rel c => release_value_set st c
  | .dis s c => (disable_value_set st s c).2

/-- Run a sequence of pool operations. -/
def runVOps (st : PabotState) (ops : List VOp) : PabotState :=
  ops.foldl applyVOp st

/-! ### The recipes built on top (`PabotLib`, lines 210-275) -/

/-- Outcome of `run_setup_only_once`. -/
inductive SetupOutcome : Type where
  | skipped
  | failedElsewhere
  | ranPassed
  | ranFailed
deriving DecidableEq, Repr

/-- `PabotLib.run_setup_only_once(keyword, *args)` (lines 210-231) against
the server state: acquire the position-scoped lock, read the marker,
branch, and release in the `finally`.  `none` models the call never
completing because the lock is owned by another caller (the client polls
forever in that case).  `kwSucceeds` is the pass/fail outcome of the
wrapped keyword, which is external to this library. -/
def run_setup_only_once (L : LockTable) (kv : KVStore) (path caller : String)
    (kwSucceeds : Bool) : Option (SetupOutcome × LockTable × KVStore) :=
  let name := "pabot_setup_" ++ path
  match acquire_lock L name caller with
  | (false, _) => none
  | (true, L1) =>
    let passed := get_parallel_value_for_key kv name
    if passed = PValue.str "" then
      if kwSucceeds then
        (release_lock L1 name caller).map
          (fun L2 => (.ranPassed, L2, set_parallel_value_for_key kv name (PValue.str "PASSED")))
      else
        (release_lock L1 name caller).map
          (fun L2 => (.ranFailed, L2, set_parallel_value_for_key kv name (PValue.str "FAILED")))
    else if passed = PValue.str "FAILED" then
      (release_lock L1 name caller).map
        (fun L2 => (.failedElsewhere, L2, set_parallel_value_for_key kv name (PValue.str "FAILED")))
    else
      (release_lock L1 name caller).map (fun L2 => (.skipped, L2, kv))

/-- The watermark key polled by `run_teardown_only_once`. -/
def minQueueIndexKey : String := "pabot_min_queue_index_executing"

/-- Outcome of one evaluation of `run_teardown_only_once`:
`executed` means the keyword runs, `skipped` that the call returns without
running it, `waiting` that the polling loop does not pass with the current
store contents, and `typeErr` that comparing a non-integer watermark with
the queue index raises. -/
inductive TeardownOutcome : Type where
  | executed
  | skipped
  | waiting
  | typeErr
deriving DecidableEq, Repr

/-- `PabotLib.run_teardown_only_once(keyword, *args)` (lines 255-275).
`lastLevel` and `queueIndex` are the externally supplied variables;
`hasRemote` tells whether the facade is connected to the coordinator (the
polling loop only runs in that case).  The store is read once; `waiting`
stands for a loop iteration that goes back to sleep. -/
def run_teardown_only_once (kv : KVStore) (lastLevel : Option String) (path : String)
    (queueIndex : Int) (hasRemote : Bool) : TeardownOutcome :=
  match lastLevel with
  | none => .executed
  | some ll =>
    if startswith path ll = false then .skipped
    else if hasRemote then
      match get_parallel_value_for_key kv minQueueIndexKey with
      | PValue.int i => if i < queueIndex then .waiting else .executed
      | _ => .typeErr
    else .executed

/-! ### Stated claim conclusions and auxiliary predicates -/

/-- Conclusion of claim C1, parameterised by the initial table and the two
callers.  The first four conjuncts are the general law: while lock `n` is
owned by `a`, an acquire by `b` fails and changes nothing; an acquire by
`a` increments the count; a release by `a` decrements it, removing the
entry exactly when the count reaches zero.  The last conjunct is the
double-acquire scenario: after `a` acquires twice, `b` fails, one release
still leaves `b` failing, and only the second release frees the lock. -/
def LockExclusionCounting (L0 : LockTable) (n a b : String) : Prop :=
  (∀ (L : LockTable) (c : Int), dictGet? L n = some (a, c) →
      acquire_lock L n b = (false, L)) ∧
  (∀ (L : LockTable) (c : Int), dictGet? L n = some (a, c) →
      acquire_lock L n a = (true, dictSet L n (a, c + 1))) ∧
  (∀ (L : LockTable) (c : Int), dictGet? L n = some (a, c) → c ≠ 1 →
      release_lock L n a = some (dictSet L n (a, c - 1))) ∧
  (∀ (L : LockTable), dictGet? L n = some (a, 1) →
      release_lock L n a = some (dictDel L n) ∧ dictGet? (dictDel L n) n = none) ∧
  ((acquire_lock L0 n a).1 = true ∧
   (acquire_lock (acquire_lock L0 n a).2 n a).1 = true ∧
   acquire_lock (acquire_lock (acquire_lock L0 n a).2 n a).2 n b =
     (false, (acquire_lock (acquire_lock L0 n a).2 n a).2) ∧
   (∃ L3, release_lock (acquire_lock (acquire_lock L0 n a).2 n a).2 n a = some L3 ∧
      acquire_lock L3 n b = (false, L3) ∧
      (∃ L4, release_lock L3 n a = some L4 ∧
         dictGet? L4 n = none ∧ (acquire_lock L4 n b).1 = true)))

/-- Well-formedness of one lock entry: reachable lock tables only hold
entries with a positive count (an entry is created at count 1 and removed
at count 0). -/
def lockCountOK (L : LockTable) (n : String) : Bool :=
  match dictGet? L n with
  | some oc => decide (1 ≤ oc.2)
  | none => true

/-- Conclusion of claim C2 for one completed call: the lock table is
restored exactly (the position-scoped lock was acquired and released
exactly once on every path), a recorded PASSED marker skips without
running, a recorded FAILED marker raises the failed-elsewhere error, and
an unset marker runs the keyword and records PASSED or FAILED according
to its outcome (re-raising the failure). -/
def SetupOncePaths (L : LockTable) (kv : KVStore) (path : String)
    (kwSucceeds : Bool) (o : SetupOutcome) (L2 : LockTable) (kv2 : KVStore) : Prop :=
  L2 = L ∧
  (get_parallel_value_for_key kv ("pabot_setup_" ++ path) = PValue.str "PASSED" →
      o = .skipped ∧ kv2 = kv) ∧
  (get_parallel_value_for_key kv ("pabot_setup_" ++ path) = PValue.str "FAILED" →
      o = .failedElsewhere ∧
      kv2 = set_parallel_value_for_key kv ("pabot_setup_" ++ path) (PValue.str "FAILED")) ∧
  (get_parallel_value_for_key kv ("pabot_setup_" ++ path) = PValue.str "" →
      (kwSucceeds = true → o = .ranPassed ∧
        kv2 = set_parallel_value_for_key kv ("pabot_setup_" ++ path) (PValue.str "PASSED")) ∧
      (kwSucceeds = false → o = .ranFailed ∧
        kv2 = set_parallel_value_for_key kv ("pabot_setup_" ++ path) (PValue.str "FAILED")))

/-- Conclusion of claim C5: without a last-level variable the keyword runs
unconditionally; with one, a position outside the designated subtree is a
no-op; inside the subtree (with the facade connected to the coordinator,
where the shared watermark lives) the keyword runs exactly when the
watermark integer has reached the queue index. -/
def TeardownGate (kv : KVStore) (ll path : String) (q i : Int) (r : Bool) : Prop :=
  run_teardown_only_once kv none path q r = .executed ∧
  (startswith path ll = false → run_teardown_only_once kv (some ll) path q r = .skipped) ∧
  (startswith path ll = true →
      (run_teardown_only_once kv (some ll) path q true = .executed ↔ q ≤ i))

/-- Conclusion of claim C3: an empty pool raises; a held reservation
raises; no tag-matching set raises the permanent no-matching error; at
least one match with every matching set held yields the non-error
sentinel with the state unchanged; otherwise the first unowned matching
set in configuration order is assigned and returned. -/
def AcquireClassify (st : PabotState) (caller : String) (tags : List String) : Prop :=
  (st.values = [] → acquire_value_set st caller tags = (.errEmptyPool, st)) ∧
  (st.values ≠ [] → hasReservation st.ownerToValues caller = true →
      acquire_value_set st caller tags = (.errAlreadyReserved, st)) ∧
  (st.values ≠ [] → hasReservation st.ownerToValues caller = false →
      (∀ p ∈ st.values, tagsMatch p.2 tags = false) →
      acquire_value_set st caller tags = (.errNoMatching, st)) ∧
  (st.values ≠ [] → hasReservation st.ownerToValues caller = false →
      (∃ p ∈ st.values, tagsMatch p.2 tags = true) →
      (∀ p ∈ st.values, tagsMatch p.2 tags = true → heldBy st.ownerToValues p.2 = true) →
      acquire_value_set st caller tags = (.waitSentinel, st)) ∧
  (∀ (k : String) (d : VSData), hasReservation st.ownerToValues caller = false →
      st.values.find? (fun p => tagsMatch p.2 tags && !heldBy st.ownerToValues p.2)
        = some (k, d) →
      acquire_value_set st caller tags =
        (.assigned k d,
         { st with ownerToValues := dictSet st.ownerToValues caller (some d) }))

/-- The sample configuration of claim C7: section A with a tags option
and a data key, section B without a tags option. -/
def sampleSections : List (String × List (String × String)) :=
  [("A", [("tags", "foo,bar"), ("key", "val")]), ("B", [("key2", "v2")])]

/-- The data dictionary parsed for section A. -/
def sampleSetA : VSData := parseData [("tags", "foo,bar"), ("key", "val")]

/-- Conclusion of claim C8: releasing keeps the caller as a key bound to
None; any caller present as a key can never see the no-reservation error
(a None reservation yields the TypeError of `key not in None` instead);
key presence is preserved by every pool operation; and the
no-reservation error forces the caller to be absent, i.e. to never have
reserved. -/
def ReleasedGetBehaviour : Prop :=
  (∀ (st : PabotState) (caller : String),
      dictGet? (release_value_set st caller).ownerToValues caller = some none) ∧
  (∀ (st : PabotState) (key caller : String) (r : Option VSData),
      dictGet? st.ownerToValues caller = some r →
      get_value_from_set st key caller ≠ .error .noValueSetReserved) ∧
  (∀ (st : PabotState) (key caller : String),
      dictGet? st.ownerToValues caller = some none →
      get_value_from_set st key caller = .error .typeErr) ∧
  (∀ (st : PabotState) (caller : String) (op : VOp),
      (dictGet? st.ownerToValues caller).isSome = true →
      (dictGet? (applyVOp st op).ownerToValues caller).isSome = true) ∧
  (∀ (st : PabotState) (key caller : String),
      get_value_from_set st key caller = .error .noValueSetReserved →
      dictGet? st.ownerToValues caller = none)

/-- Two reservation-map values are distinct holdings: whenever both are
data dictionaries, they are unequal as Python dictionaries. -/
def distinctHeld (x y : Option VSData) : Prop :=
  ∀ d e, x = some d → y = some e → dictBeq d e = false

/-- The reservation-map invariant: keys are unique (it is a dictionary)
and any two held data dictionaries are unequal. -/
def ResInv (res : ResMap) : Prop :=
  (res.map Prod.fst).Nodup ∧ res.Pairwise (fun p q => distinctHeld p.2 q.2)

/-- Conclusion of claim C4 on one state: the reservation map is a proper
dictionary (each caller holds at most one value); two different callers
never hold equal data dictionaries; and after a caller releases, the data
it held is no longer seen as owned, so a subsequent acquire by any caller
with no active reservation obtains that set when it is the first
tag-matching entry of the pool. -/
def PoolUniqueAndRelease (st : PabotState) : Prop :=
  (st.ownerToValues.map Prod.fst).Nodup ∧
  (∀ (c1 c2 : String) (d1 d2 : VSData), c1 ≠ c2 →
      dictGet? st.ownerToValues c1 = some (some d1) →
      dictGet? st.ownerToValues c2 = some (some d2) →
      dictBeq d1 d2 = false) ∧
  (∀ (c : String) (d : VSData), dictGet? st.ownerToValues c = some (some d) →
      heldBy (release_value_set st c).ownerToValues d = false ∧
      (∀ (c2 k : String) (tags : List String),
          hasReservation (release_value_set st c).ownerToValues c2 = false →
          (release_value_set st c).values.find? (fun p => tagsMatch p.2 tags)
            = some (k, d) →
          (acquire_value_set (release_value_set st c) c2 tags).1 = .assigned k d))

/-! ### Dictionary lemmas -/

theorem dictGet?_nil {α : Type} {k : String} : dictGet? ([] : List (String × α)) k = none := rfl

theorem dictGet?_cons {α : Type} {k : String} {p : String × α} {d : List (String × α)} :
    dictGet? (p :: d) k = if p.1 = k then some p.2 else dictGet? d k := by
  by_cases h : p.1 = k <;> simp [dictGet?, List.find?_cons, h]

theorem dictGet?_dictSet_self {α : Type} {d : List (String × α)} {k : String} {v : α} :
    dictGet? (dictSet d k v) k = some v := by
  induction d with
  | nil => simp [dictSet, dictGet?_cons]
  | cons p rest ih =>
    by_cases h : p.1 = k
    · simp [dictSet, h, dictGet?_cons]
    · simp [dictSet, h, dictGet?_cons, ih]

theorem dictGet?_dictSet_ne {α : Type} {d : List (String × α)} {k k' : String} {v : α}
    (h : k' ≠ k) : dictGet? (dictSet d k v) k' = dictGet? d k' := by
  have hk : ¬ k = k' := fun h2 => h h2.symm
  induction d with
  | nil => simp [dictSet, dictGet?_cons, dictGet?_nil, hk]
  | cons p rest ih =>
    by_cases hp : p.1 = k
    · simp only [dictSet, if_pos hp, dictGet?_cons, if_neg hk,
        if_neg (fun hc => hk (hp.symm.trans hc))]
    · simp only [dictSet, if_neg hp, dictGet?_cons, ih]

theorem dictGet?_dictDel_self {α : Type} {d : List (String × α)} {k : String} :
    dictGet? (dictDel d k) k = none := by
  induction d with
  | nil => rfl
  | cons p rest ih =>
    by_cases h : p.1 = k
    · simpa [dictDel, h] using ih
    · simpa [dictDel, h, dictGet?_cons] using ih

theorem dictDel_of_get_none {α : Type} {d : List (String × α)} {k : String}
    (h : dictGet? d k = none) : dictDel d k = d := by
  induction d with
  | nil => rfl
  | cons p rest ih =>
    rw [dictGet?_cons] at h
    by_cases hp : p.1 = k
    · simp [hp] at h
    · simp [hp] at h
      simp [dictDel, hp] at ih ⊢
      exact ih h

theorem dictDel_dictSet_self {α : Type} {d : List (String × α)} {k : String} {v : α} :
    dictDel (dictSet d k v) k = dictDel d k := by
  induction d with
  | nil => simp [dictSet, dictDel]
  | cons p rest ih =>
    by_cases hp : p.1 = k
    · simp [dictSet, hp, dictDel]
    · simp [dictSet, hp, dictDel] at ih ⊢
      exact ih

theorem dictSet_dictSet_self {α : Type} {d : List (String × α)} {k : String} {v w : α} :
    dictSet (dictSet d k v) k w = dictSet d k w := by
  induction d with
  | nil => simp [dictSet]
  | cons p rest ih =>
    by_cases hp : p.1 = k
    · simp [dictSet, hp]
    · simp [dictSet, hp, ih]

theorem dictSet_get_self {α : Type} {d : List (String × α)} {k : String} {v : α}
    (h : dictGet? d k = some v) : dictSet d k v = d := by
  induction d with
  | nil => simp [dictGet?_nil] at h
  | cons p rest ih =>
    rw [dictGet?_cons] at h
    by_cases hp : p.1 = k
    · simp only [if_pos hp, Option.some.injEq] at h
      have hpv : p = (k, v) := by
        cases p
        simp only [Prod.mk.injEq]
        exact ⟨hp, h⟩
      simp only [dictSet, if_pos hp, ← hpv]
    · simp only [if_neg hp] at h
      simp only [dictSet, if_neg hp, ih h]

theorem mem_dictSet {α : Type} {d : List (String × α)} {k : String} {v : α} {p : String × α}
    (h : p ∈ dictSet d k v) : p ∈ d ∨ p = (k, v) := by
  induction d with
  | nil => simpa [dictSet] using h
  | cons q rest ih =>
    by_cases hq : q.1 = k
    · simp [dictSet, hq] at h
      rcases h with h | h
      · right; exact h
      · left; simp [h]
    · simp [dictSet, hq] at h
      rcases h with h | h
      · left; simp [h]
      · rcases ih h with h2 | h2
        · left; simp [h2]
        · right; exact h2

theorem mem_keys_dictSet {α : Type} {d : List (String × α)} {k k' : String} {v : α}
    (h : k' ∈ (dictSet d k v).map Prod.fst) : k' ∈ d.map Prod.fst ∨ k' = k := by
  simp only [List.mem_map] at h
  obtain ⟨p, hp, hk⟩ := h
  rcases mem_dictSet hp with h2 | h2
  · left; exact List.mem_map.mpr ⟨p, h2, hk⟩
  · right; rw [← hk, h2]

theorem nodup_keys_dictSet {α : Type} {d : List (String × α)} {k : String} {v : α}
    (h : (d.map Prod.fst).Nodup) : ((dictSet d k v).map Prod.fst).Nodup := by
  induction d with
  | nil => simp [dictSet]
  | cons p rest ih =>
    simp only [List.map_cons, List.nodup_cons] at h
    by_cases hp : p.1 = k
    · simp only [dictSet, hp, if_true, List.map_cons, List.nodup_cons]
      exact ⟨hp ▸ h.1, h.2⟩
    · simp only [dictSet, hp, if_false, List.map_cons, List.nodup_cons]
      refine ⟨fun hc => ?_, ih h.2⟩
      rcases mem_keys_dictSet hc with h2 | h2
      · exact h.1 h2
      · exact hp h2

theorem mem_dictSet_nodup {α : Type} {d : List (String × α)} {k : String} {v : α}
    {p : String × α} (hnd : (d.map Prod.fst).Nodup) (h : p ∈ dictSet d k v) :
    p = (k, v) ∨ (p ∈ d ∧ p.1 ≠ k) := by
  induction d with
  | nil => simp [dictSet] at h; left; simp [h]
  | cons q rest ih =>
    simp only [List.map_cons, List.nodup_cons] at hnd
    by_cases hq : q.1 = k
    · simp only [dictSet, hq, if_true, List.mem_cons] at h
      rcases h with h | h
      · left; exact h
      · right
        refine ⟨List.mem_cons_of_mem _ h, fun hc => ?_⟩
        exact hnd.1 (hq ▸ List.mem_map.mpr ⟨p, h, hc⟩)
    · simp only [dictSet, hq, if_false, List.mem_cons] at h
      rcases h with h | h
      · right; exact ⟨h ▸ List.mem_cons_self _ _, h ▸ hq⟩
      · rcases ih hnd.2 h with h2 | h2
        · left; exact h2
        · right; exact ⟨List.mem_cons_of_mem _ h2.1, h2.2⟩

theorem mem_of_dictGet? {α : Type} {d : List (String × α)} {k : String} {v : α}
    (h : dictGet? d k = some v) : (k, v) ∈ d := by
  induction d with
  | nil => simp [dictGet?_nil] at h
  | cons p rest ih =>
    rw [dictGet?_cons] at h
    by_cases hp : p.1 = k
    · simp only [if_pos hp, Option.some.injEq] at h
      have hpv : p = (k, v) := by
        cases p
        simp only [Prod.mk.injEq]
        exact ⟨hp, h⟩
      exact List.mem_cons.mpr (Or.inl hpv.symm)
    · simp only [if_neg hp] at h
      exact List.mem_cons_of_mem _ (ih h)

theorem isSome_dictGet?_dictSet {α : Type} {d : List (String × α)} {k k' : String} {v : α}
    (h : (dictGet? d k').isSome = true) : (dictGet? (dictSet d k v) k').isSome = true := by
  by_cases hk : k' = k
  · rw [hk, dictGet?_dictSet_self]; rfl
  · rwa [dictGet?_dictSet_ne hk]

/-! ### Lemmas about Python dictionary equality and the ownership test -/

theorem dictBeq_eq_true_iff {a b : VSData} :
    dictBeq a b = true ↔
      ((∀ k ∈ a.map Prod.fst, dictGet? a k = dictGet? b k) ∧
       (∀ k ∈ b.map Prod.fst, dictGet? a k = dictGet? b k)) := by
  simp [dictBeq, List.all_eq_true]

theorem dictBeq_refl {a : VSData} : dictBeq a a = true := by
  simp [dictBeq_eq_true_iff]

theorem dictBeq_symm_true {a b : VSData} (h : dictBeq a b = true) : dictBeq b a = true := by
  rw [dictBeq_eq_true_iff] at h ⊢
  exact ⟨fun k hk => (h.2 k hk).symm, fun k hk => (h.1 k hk).symm⟩

theorem dictBeq_symm_false {a b : VSData} (h : dictBeq a b = false) : dictBeq b a = false := by
  cases hba : dictBeq b a with
  | false => rfl
  | true => rw [dictBeq_symm_true hba] at h; exact absurd h (by simp)

theorem heldVal_eq_false_iff {x : Option VSData} {d : VSData} :
    heldVal x d = false ↔ ∀ e, x = some e → dictBeq d e = false := by
  cases x <;> simp [heldVal]

theorem heldBy_eq_false_iff {res : ResMap} {d : VSData} :
    heldBy res d = false ↔ ∀ p ∈ res, ∀ e, p.2 = some e → dictBeq d e = false := by
  rw [heldBy, List.any_eq_false]
  constructor
  · intro h p hp e he
    exact (heldVal_eq_false_iff.mp (by simpa using h p hp)) e he
  · intro h p hp
    simpa using heldVal_eq_false_iff.mpr (h p hp)

/-! ### Characterisation of the value-set scan loop -/

theorem scanSets_matching {res : ResMap} {tags : List String} {vs : Pool} :
    (scanSets res tags vs).1 = vs.any (fun p => tagsMatch p.2 tags) := by
  induction vs with
  | nil => rfl
  | cons p rest ih =>
    by_cases hm : tagsMatch p.2 tags
    · cases hh : heldBy res p.2 <;> simp [scanSets, hm, hh]
    · simp only [Bool.not_eq_true] at hm
      simp [scanSets, hm, ih]

theorem scanSets_assign {res : ResMap} {tags : List String} {vs : Pool} :
    (scanSets res tags vs).2 =
      vs.find? (fun p => tagsMatch p.2 tags && !heldBy res p.2) := by
  induction vs with
  | nil => rfl
  | cons p rest ih =>
    by_cases hm : tagsMatch p.2 tags
    · cases hh : heldBy res p.2 <;> simp [scanSets, hm, hh, List.find?_cons, ih]
    · simp only [Bool.not_eq_true] at hm
      simp [scanSets, hm, List.find?_cons, ih]

theorem find?_and_of_find? {α : Type} {l : List α} {p q : α → Bool} {a : α}
    (h : l.find? p = some a) (hq : q a = true) :
    l.find? (fun x => p x && q x) = some a := by
  induction l with
  | nil => simp at h
  | cons x rest ih =>
    cases hx : p x with
    | true =>
      rw [List.find?_cons_of_pos _ hx] at h
      cases h
      rw [List.find?_cons_of_pos _ (by rw [hx, hq]; rfl)]
    | false =>
      rw [List.find?_cons_of_neg _ (by simp [hx])] at h
      rw [List.find?_cons_of_neg _ (by simp [hx])]
      exact ih h

/-! ### Claim C1: lock mutual exclusion with counting -/

/-- C1: after a caller `a` successfully acquires lock `n`, every
`acquire_lock(n, b)` for a different caller `b` returns False until `a`
has released once per successful acquire and the entry is removed at
count zero; in particular acquiring twice requires two releases before
`b` can acquire. -/
theorem C1_lock_exclusion_and_counting (L0 : LockTable) (n a b : String)
    (hab : a ≠ b) (hfree : dictGet? L0 n = none) :
    LockExclusionCounting L0 n a b := by
  have excl : ∀ (L : LockTable) (c : Int), dictGet? L n = some (a, c) →
      acquire_lock L n b = (false, L) := by
    intro L c h
    simp [acquire_lock, h, hab.symm]
  have acq : ∀ (L : LockTable) (c : Int), dictGet? L n = some (a, c) →
      acquire_lock L n a = (true, dictSet L n (a, c + 1)) := by
    intro L c h
    simp [acquire_lock, h]
  have rel : ∀ (L : LockTable) (c : Int), dictGet? L n = some (a, c) → c ≠ 1 →
      release_lock L n a = some (dictSet L n (a, c - 1)) := by
    intro L c h hc
    simp [release_lock, h, sub_eq_zero, hc]
  have relLast : ∀ (L : LockTable), dictGet? L n = some (a, 1) →
      release_lock L n a = some (dictDel L n) ∧ dictGet? (dictDel L n) n = none := by
    intro L h
    constructor
    · simp [release_lock, h]
    · exact dictGet?_dictDel_self
  have hA1 : acquire_lock L0 n a = (true, dictSet L0 n (a, 1)) := by
    simp [acquire_lock, hfree]
  have hg1 : dictGet? (dictSet L0 n (a, (1 : Int))) n = some (a, 1) :=
    dictGet?_dictSet_self
  have hg2 : dictGet? (dictSet (dictSet L0 n (a, 1)) n (a, (1 : Int) + 1)) n
      = some (a, 1 + 1) := dictGet?_dictSet_self
  have hg3 : dictGet? (dictSet (dictSet (dictSet L0 n (a, 1)) n (a, 1 + 1)) n
      (a, (1 : Int) + 1 - 1)) n = some (a, 1 + 1 - 1) := dictGet?_dictSet_self
  have hg3' : dictGet? (dictSet (dictSet (dictSet L0 n (a, 1)) n (a, 1 + 1)) n
      (a, (1 : Int) + 1 - 1)) n = some (a, 1) := by
    rw [hg3]
    norm_num
  refine ⟨excl, acq, rel, relLast, ?_, ?_, ?_, ?_⟩
  · rw [hA1]
  · rw [hA1, acq _ _ hg1]
  · rw [hA1, acq _ _ hg1]
    exact excl _ _ hg2
  · rw [hA1, acq _ _ hg1]
    refine ⟨_, rel _ _ hg2 (by norm_num), ?_, ?_⟩
    · exact excl _ _ hg3
    · refine ⟨_, (relLast _ hg3').1, (relLast _ hg3').2, ?_⟩
      have hnone := (relLast _ hg3').2
      norm_num at hnone ⊢
      simp [acquire_lock, hnone]

/-- Witness for C1 at a concrete instance. -/
theorem C1_lock_exclusion_and_counting_witness :
    LockExclusionCounting [] "lockA" "w1" "w2" :=
  C1_lock_exclusion_and_counting [] "lockA" "w1" "w2" (by decide) rfl

/-! ### Claim C2: run_setup_only_once marker logic and lock discipline -/

/-- A successful acquire followed by one release restores the lock table
exactly. -/
theorem release_after_acquire {L : LockTable} {n c : String}
    (hok : lockCountOK L n = true) (h : (acquire_lock L n c).1 = true) :
    release_lock (acquire_lock L n c).2 n c = some L := by
  cases hg : dictGet? L n with
  | none =>
    have ha : acquire_lock L n c = (true, dictSet L n (c, 1)) := by
      simp [acquire_lock, hg]
    rw [ha]
    simp only [release_lock, dictGet?_dictSet_self]
    norm_num
    rw [dictDel_dictSet_self, dictDel_of_get_none hg]
  | some oc =>
    have hok2 : (1 : Int) ≤ oc.2 := by
      simp only [lockCountOK, hg] at hok
      exact of_decide_eq_true hok
    simp only [acquire_lock, hg] at h ⊢
    by_cases hc : c = oc.1
    · have hge : dictGet? (dictSet L n (oc.1, oc.2 + 1)) n = some (oc.1, oc.2 + 1) :=
        dictGet?_dictSet_self
      have h10 : ¬ (oc.2 + 1 - 1 = 0) := by omega
      simp only [hc, if_true, if_pos rfl, release_lock, hge]
      rw [if_neg h10, show oc.2 + 1 - 1 = oc.2 by omega, dictSet_dictSet_self]
      have he : dictSet L n (oc.1, oc.2) = dictSet L n oc := rfl
      rw [he, dictSet_get_self hg]
    · simp [hc] at h

/-- C2: on every completed `run_setup_only_once` call the lock is
released exactly once (the final lock table equals the initial one), a
PASSED marker skips and returns success, a FAILED marker raises the
failed-elsewhere error without re-running, and an unset marker executes
the keyword and records PASSED on success or FAILED on failure. -/
theorem C2_run_setup_only_once_paths
    (L : LockTable) (kv : KVStore) (path caller : String) (kwSucceeds : Bool)
    (o : SetupOutcome) (L2 : LockTable) (kv2 : KVStore)
    (hok : lockCountOK L ("pabot_setup_" ++ path) = true)
    (h : run_setup_only_once L kv path caller kwSucceeds = some (o, L2, kv2)) :
    SetupOncePaths L kv path kwSucceeds o L2 kv2 := by
  rcases hacq : acquire_lock L ("pabot_setup_" ++ path) caller with ⟨b, L1⟩
  simp only [run_setup_only_once, hacq] at h
  cases b
  · exact absurd h (by simp)
  · have hT : (acquire_lock L ("pabot_setup_" ++ path) caller).1 = true := by
      rw [hacq]
    have hrel : release_lock L1 ("pabot_setup_" ++ path) caller = some L := by
      have hr := release_after_acquire hok hT
      rw [hacq] at hr
      exact hr
    dsimp only at h
    by_cases hkv : get_parallel_value_for_key kv ("pabot_setup_" ++ path) = PValue.str ""
    · rw [if_pos hkv] at h
      cases kwSucceeds
      · rw [if_neg Bool.false_ne_true, hrel] at h
        simp only [Option.map_some', Option.some.injEq, Prod.mk.injEq] at h
        obtain ⟨ho, hL, hk⟩ := h
        refine ⟨hL.symm, ?_, ?_, ?_⟩
        · intro hp
          exact absurd (hkv.symm.trans hp) (by decide)
        · intro hp
          exact absurd (hkv.symm.trans hp) (by decide)
        · intro _
          exact ⟨fun hks => Bool.noConfusion hks, fun _ => ⟨ho.symm, hk.symm⟩⟩
      · rw [if_pos rfl, hrel] at h
        simp only [Option.map_some', Option.some.injEq, Prod.mk.injEq] at h
        obtain ⟨ho, hL, hk⟩ := h
        refine ⟨hL.symm, ?_, ?_, ?_⟩
        · intro hp
          exact absurd (hkv.symm.trans hp) (by decide)
        · intro hp
          exact absurd (hkv.symm.trans hp) (by decide)
        · intro _
          exact ⟨fun _ => ⟨ho.symm, hk.symm⟩, fun hks => Bool.noConfusion hks⟩
    · rw [if_neg hkv] at h
      by_cases hkvF : get_parallel_value_for_key kv ("pabot_setup_" ++ path)
          = PValue.str "FAILED"
      · rw [if_pos hkvF, hrel] at h
        simp only [Option.map_some', Option.some.injEq, Prod.mk.injEq] at h
        obtain ⟨ho, hL, hk⟩ := h
        refine ⟨hL.symm, ?_, ?_, ?_⟩
        · intro hp
          exact absurd (hkvF.symm.trans hp) (by decide)
        · intro _
          exact ⟨ho.symm, hk.symm⟩
        · intro hp
          exact absurd (hkvF.symm.trans hp) (by decide)
      · rw [if_neg hkvF, hrel] at h
        simp only [Option.map_some', Option.some.injEq, Prod.mk.injEq] at h
        obtain ⟨ho, hL, hk⟩ := h
        refine ⟨hL.symm, ?_, ?_, ?_⟩
        · intro _
          exact ⟨ho.symm, hk.symm⟩
        · intro hp
          exact absurd hp hkvF
        · intro hp
          exact absurd hp hkv

/-- Witness for C2 at a concrete instance: empty lock table, unset
marker, succeeding keyword. -/
theorem C2_run_setup_only_once_paths_witness :
    SetupOncePaths [] [] "suite" true SetupOutcome.ranPassed []
      [("pabot_setup_suite", PValue.str "PASSED")] :=
  C2_run_setup_only_once_paths [] [] "suite" "w1" true SetupOutcome.ranPassed []
    [("pabot_setup_suite", PValue.str "PASSED")] (by decide) rfl

/-! ### Claim C5: run_teardown_only_once gating -/

/-- C5: `run_teardown_only_once` executes unconditionally when no
last-level variable is supplied, is a no-op when the position does not
start with the last-level value, and otherwise executes only once the
shared watermark integer is at least the queue index. -/
theorem C5_run_teardown_only_once_gate (kv : KVStore) (ll path : String)
    (q i : Int) (r : Bool)
    (hwm : get_parallel_value_for_key kv minQueueIndexKey = PValue.int i) :
    TeardownGate kv ll path q i r := by
  refine ⟨rfl, ?_, ?_⟩
  · intro hs
    simp [run_teardown_only_once, hs]
  · intro hs
    have hs2 : ¬ (startswith path ll = false) := by simp [hs]
    simp only [run_teardown_only_once, if_neg hs2, if_pos rfl, hwm]
    by_cases hlt : i < q
    · rw [if_pos hlt]
      constructor
      · intro hcon
        exact absurd hcon (by decide)
      · intro hq
        omega
    · rw [if_neg hlt]
      exact ⟨fun _ => by omega, fun _ => rfl⟩

/-- Witness for C5 at a concrete instance. -/
theorem C5_run_teardown_only_once_gate_witness :
    TeardownGate [(minQueueIndexKey, PValue.int 3)] "s1" "s1.sub" 2 3 false :=
  C5_run_teardown_only_once_gate [(minQueueIndexKey, PValue.int 3)] "s1" "s1.sub" 2 3
    false rfl

/-! ### Claim C9: disable_value_set mutates before it raises -/

/-- C9: when the named set is absent, `disable_value_set` raises the
key-lookup error, leaves the pool unchanged, but has already cleared the
reservation of the caller: the state changes despite the error. -/
theorem C9_disable_value_set_not_atomic
    (st : PabotState) (setname caller : String) (d : VSData)
    (hmiss : dictGet? st.values setname = none)
    (hres : dictGet? st.ownerToValues caller = some (some d)) :
    (disable_value_set st setname caller).1 = true ∧
    (disable_value_set st setname caller).2.values = st.values ∧
    dictGet? (disable_value_set st setname caller).2.ownerToValues caller = some none ∧
    (disable_value_set st setname caller).2.ownerToValues ≠ st.ownerToValues := by
  have h12 : disable_value_set st setname caller
      = (true, { st with ownerToValues := dictSet st.ownerToValues caller none }) := by
    simp only [disable_value_set, hmiss]
  have hget : dictGet? (disable_value_set st setname caller).2.ownerToValues caller
      = some none := by
    rw [h12]
    exact dictGet?_dictSet_self
  refine ⟨?_, ?_, hget, ?_⟩
  · rw [h12]
  · rw [h12]
  · intro heq
    rw [heq, hres] at hget
    exact absurd (Option.some.inj hget) (by simp)

/-- Witness for C9 at a concrete instance. -/
theorem C9_disable_value_set_not_atomic_witness :
    (disable_value_set
        { locks := [], ownerToValues := [("w1", some [("tags", PValue.tags [])])],
          parallelValues := [], values := [("A", [("tags", PValue.tags [])])] }
        "B" "w1").1 = true ∧
    (disable_value_set
        { locks := [], ownerToValues := [("w1", some [("tags", PValue.tags [])])],
          parallelValues := [], values := [("A", [("tags", PValue.tags [])])] }
        "B" "w1").2.values = [("A", [("tags", PValue.tags [])])] ∧
    dictGet? (disable_value_set
        { locks := [], ownerToValues := [("w1", some [("tags", PValue.tags [])])],
          parallelValues := [], values := [("A", [("tags", PValue.tags [])])] }
        "B" "w1").2.ownerToValues "w1" = some none ∧
    (disable_value_set
        { locks := [], ownerToValues := [("w1", some [("tags", PValue.tags [])])],
          parallelValues := [], values := [("A", [("tags", PValue.tags [])])] }
        "B" "w1").2.ownerToValues ≠ [("w1", some [("tags", PValue.tags [])])] :=
  C9_disable_value_set_not_atomic
    { locks := [], ownerToValues := [("w1", some [("tags", PValue.tags [])])],
      parallelValues := [], values := [("A", [("tags", PValue.tags [])])] }
    "B" "w1" [("tags", PValue.tags [])] rfl rfl

/-! ### Claim C10: ownership is tested by data equality, not by name -/

/-- C10: with two distinct configured value sets holding equal data
dictionaries, a caller whose tags match both is not assigned the unowned
duplicate while the other is reserved: the scan compares data for
equality with every held reservation, treats the duplicate as owned, and
returns the try-later sentinel. -/
theorem C10_duplicate_data_treated_as_owned
    (nA nB c0 c : String) (dA dB : VSData) (tags : List String)
    (hnames : nA ≠ nB) (hcallers : c ≠ c0)
    (hbeq : dictBeq dA dB = true)
    (hmA : tagsMatch dA tags = true) (hmB : tagsMatch dB tags = true) :
    acquire_value_set
      { locks := [], ownerToValues := [(c0, some dA)], parallelValues := [],
        values := [(nA, dA), (nB, dB)] } c tags =
      (.waitSentinel,
       { locks := [], ownerToValues := [(c0, some dA)], parallelValues := [],
         values := [(nA, dA), (nB, dB)] }) := by
  have hres : hasReservation [(c0, some dA)] c = false := by
    have : dictGet? [(c0, some dA)] c = none := by
      simp [dictGet?, List.find?, hcallers.symm]
    simp [hasReservation, this]
  have hheldA : heldBy [(c0, some dA)] dA = true := by
    simp [heldBy, heldVal, dictBeq_refl]
  have hheldB : heldBy [(c0, some dA)] dB = true := by
    simp [heldBy, heldVal, dictBeq_symm_true hbeq]
  simp only [acquire_value_set, List.isEmpty_cons, if_false, hres, Bool.false_eq_true,
    scanSets, hmA, if_true, hheldA, hheldB, hmB]

/-- Witness for C10 at a concrete instance: sets A and B share the same
data dictionary; w1 holds A, and w2 requesting no tags gets the sentinel
although B is not reserved by name. -/
theorem C10_duplicate_data_treated_as_owned_witness :
    acquire_value_set
      { locks := [], ownerToValues := [("w1", some [("tags", PValue.tags [])])],
        parallelValues := [],
        values := [("A", [("tags", PValue.tags [])]), ("B", [("tags", PValue.tags [])])] }
      "w2" [] =
      (.waitSentinel,
       { locks := [], ownerToValues := [("w1", some [("tags", PValue.tags [])])],
         parallelValues := [],
         values := [("A", [("tags", PValue.tags [])]), ("B", [("tags", PValue.tags [])])] }) :=
  C10_duplicate_data_treated_as_owned "A" "B" "w1" "w2"
    [("tags", PValue.tags [])] [("tags", PValue.tags [])] []
    (by decide) (by decide) (by decide) (by decide) (by decide)

/-! ### Claim C3: classification of acquire_value_set outcomes -/

/-- C3: `acquire_value_set` raises on an empty pool, raises when the
caller already holds a reservation, raises the permanent error when no
configured set matches the tags, returns the `(None, None)` sentinel when
every matching set is currently held, and otherwise assigns the first
unowned matching set in configuration order.  The well-formedness
hypothesis restricts the statement to pools whose data dictionaries carry
the parsed `"tags"` entry the code indexes into. -/
theorem C3_acquire_value_set_classification (st : PabotState) (caller : String)
    (tags : List String)
    (hwf : st.values.all (fun p => hasTags p.2) = true) :
    AcquireClassify st caller tags := by
  have hemp : ∀ (h : st.values ≠ []), st.values.isEmpty = false := by
    intro h
    cases hv : st.values with
    | nil => exact absurd hv h
    | cons a l => rfl
  refine ⟨?_, ?_, ?_, ?_, ?_⟩
  · intro h
    simp [acquire_value_set, h]
  · intro hne hres
    simp [acquire_value_set, hemp hne, hres]
  · intro hne hres hnone
    have h1 : (scanSets st.ownerToValues tags st.values).1 = false := by
      rw [scanSets_matching, List.any_eq_false]
      intro p hp
      simp [hnone p hp]
    have h2 : (scanSets st.ownerToValues tags st.values).2 = none := by
      rw [scanSets_assign, List.find?_eq_none]
      intro p hp
      simp [hnone p hp]
    have hsc : scanSets st.ownerToValues tags st.values = (false, none) :=
      Prod.ext h1 h2
    simp [acquire_value_set, hemp hne, hres, hsc]
  · intro hne hres hex hall
    have h1 : (scanSets st.ownerToValues tags st.values).1 = true := by
      rw [scanSets_matching, List.any_eq_true]
      obtain ⟨p, hp, hm⟩ := hex
      exact ⟨p, hp, hm⟩
    have h2 : (scanSets st.ownerToValues tags st.values).2 = none := by
      rw [scanSets_assign, List.find?_eq_none]
      intro p hp
      by_cases hm : tagsMatch p.2 tags = true
      · simp [hm, hall p hp hm]
      · simp only [Bool.not_eq_true] at hm
        simp [hm]
    have hsc : scanSets st.ownerToValues tags st.values = (true, none) :=
      Prod.ext h1 h2
    simp [acquire_value_set, hemp hne, hres, hsc]
  · intro k d hres hfind
    have hne : st.values ≠ [] := by
      intro hv
      rw [hv] at hfind
      exact absurd hfind (by simp)
    have h2 : (scanSets st.ownerToValues tags st.values).2 = some (k, d) := by
      rw [scanSets_assign, hfind]
    cases hb : (scanSets st.ownerToValues tags st.values).1 with
    | false =>
      have hsc : scanSets st.ownerToValues tags st.values = (false, some (k, d)) :=
        Prod.ext hb h2
      simp [acquire_value_set, hemp hne, hres, hsc]
    | true =>
      have hsc : scanSets st.ownerToValues tags st.values = (true, some (k, d)) :=
        Prod.ext hb h2
      simp [acquire_value_set, hemp hne, hres, hsc]

/-- Witness for C3 at a concrete instance: a two-set pool where the first
matching set is held and the second is assigned. -/
theorem C3_acquire_value_set_classification_witness :
    AcquireClassify
      { locks := [], ownerToValues := [("w1", some [("tags", PValue.tags ["x"]), ("a", PValue.str "1")])],
        parallelValues := [],
        values := [("A", [("tags", PValue.tags ["x"]), ("a", PValue.str "1")]),
                   ("B", [("tags", PValue.tags ["x"]), ("a", PValue.str "2")])] }
      "w2" ["x"] :=
  C3_acquire_value_set_classification
    { locks := [], ownerToValues := [("w1", some [("tags", PValue.tags ["x"]), ("a", PValue.str "1")])],
      parallelValues := [],
      values := [("A", [("tags", PValue.tags ["x"]), ("a", PValue.str "1")]),
                 ("B", [("tags", PValue.tags ["x"]), ("a", PValue.str "2")])] }
    "w2" ["x"] (by decide)

/-! ### Claim C7: configuration parsing round trip -/

/-- C7: parsing a configuration with section A holding `tags=foo,bar` and
`key=val` yields a value set named A with tag list `[foo, bar]`
(whitespace-stripped), whose data retains the literal key `tags` mapped to
the parsed list; a reserving caller reading `key` through the client
`get_value_from_set` obtains `val` (case-insensitively); and a section
without a tags option parses to an empty tag list. -/
theorem C7_parse_values_round_trip :
    dictGet? (initState sampleSections).values "A" = some sampleSetA ∧
    vsTags sampleSetA = ["foo", "bar"] ∧
    dictGet? sampleSetA "tags" = some (PValue.tags ["foo", "bar"]) ∧
    vsTags (parseData [("tags", " foo , bar ")]) = ["foo", "bar"] ∧
    (acquire_value_set (initState sampleSections) "w1" ["foo"]).1
      = .assigned "A" sampleSetA ∧
    get_value_from_set_client (some sampleSetA) "key" = .ok (PValue.str "val") ∧
    get_value_from_set_client (some sampleSetA) "KEY" = .ok (PValue.str "val") ∧
    vsTags (parseData [("key2", "v2")]) = [] :=
  ⟨rfl, rfl, rfl, rfl, rfl, rfl, rfl, rfl⟩

/-! ### Claim C8: the no-reservation error after release -/

/-- Helper: the reservation map after `acquire_value_set` is either
untouched (error or sentinel paths) or a single-key update binding the
caller to the assigned data. -/
theorem acquire_value_set_res (st : PabotState) (c : String) (tags : List String) :
    (acquire_value_set st c tags).2.ownerToValues = st.ownerToValues ∨
    ∃ d, (acquire_value_set st c tags).2.ownerToValues
        = dictSet st.ownerToValues c (some d) := by
  rw [acquire_value_set]
  split
  · exact Or.inl rfl
  · split
    · exact Or.inl rfl
    · split
      · exact Or.inr ⟨_, rfl⟩
      · exact Or.inl rfl
      · exact Or.inl rfl

/-- Helper: `disable_value_set` always rebinds the caller to None in the
reservation map, whether or not it raises. -/
theorem disable_value_set_res (st : PabotState) (s c : String) :
    (disable_value_set st s c).2.ownerToValues = dictSet st.ownerToValues c none := by
  rw [disable_value_set]
  split <;> rfl

/-- C8: a caller that has reserved and released a value set stays in the
reservation map bound to None, so a later server-side
`get_value_from_set` never raises the no-reservation error for it — the
membership test is applied to the None reservation instead — and that
error is reachable only for callers that never reserved. -/
theorem C8_get_after_release_never_no_reservation : ReleasedGetBehaviour := by
  refine ⟨?_, ?_, ?_, ?_, ?_⟩
  · intro st caller
    exact dictGet?_dictSet_self
  · intro st key caller r h
    cases r with
    | none => simp [get_value_from_set, h]
    | some d =>
      simp only [get_value_from_set, h]
      cases dictGet? d key <;> simp
  · intro st key caller h
    simp [get_value_from_set, h]
  · intro st caller op h
    cases op with
    | acq c tags =>
      rcases acquire_value_set_res st c tags with hc | ⟨d, hc⟩
      · simpa [applyVOp, hc] using h
      · rw [applyVOp, hc]
        exact isSome_dictGet?_dictSet h
    | rel c =>
      rw [applyVOp, release_value_set]
      exact isSome_dictGet?_dictSet h
    | dis s c =>
      rw [applyVOp, disable_value_set_res]
      exact isSome_dictGet?_dictSet h
  · intro st key caller h
    cases hg : dictGet? st.ownerToValues caller with
    | none => rfl
    | some r =>
      cases r with
      | none => simp [get_value_from_set, hg] at h
      | some d =>
        simp only [get_value_from_set, hg] at h
        cases hk : dictGet? d key with
        | none =>
          rw [hk] at h
          exact absurd h (by simp)
        | some v =>
          rw [hk] at h
          exact absurd h (by simp)

/-! ### Claim C6: release_locks decrement-all behaviour -/

/-- C6 evaluation: on the failing input, the Python 3 live-view iteration
raises RuntimeError right after deleting the count-one entry (the claimed
clean completion only happens under the Python 2 list-copy semantics);
on a table where no owned entry reaches zero the two semantics agree; and
on a mixed table the raise leaves a half-updated table behind. -/
theorem C6_release_locks_py3_divergence :
    release_locks_py3 [("L", ("a", 1))] "a" = Except.error [] ∧
    release_locks [("L", ("a", 1))] "a" = [] ∧
    release_locks_py3 [("L", ("a", 2))] "a" = Except.ok [("L", ("a", 1))] ∧
    release_locks [("L", ("a", 2))] "a" = [("L", ("a", 1))] ∧
    release_locks_py3 [("K", ("a", 2)), ("L", ("a", 1)), ("M", ("a", 3))] "a"
      = Except.error [("K", ("a", 1)), ("M", ("a", 3))] ∧
    release_locks [("K", ("a", 2)), ("L", ("a", 1)), ("M", ("a", 3))] "a"
      = [("K", ("a", 1)), ("M", ("a", 2))] :=
  ⟨rfl, rfl, rfl, rfl, rfl, rfl⟩

/-! ### Claim C4: reservation uniqueness on reachable states -/

theorem distinctHeld_symm {x y : Option VSData} (h : distinctHeld x y) :
    distinctHeld y x :=
  fun d e hx hy => dictBeq_symm_false (h e d hy hx)

theorem distinctHeld_none {x : Option VSData} : distinctHeld x none :=
  fun _ _ _ he => Option.noConfusion he

theorem pairwise_dictSet {res : ResMap} {k : String} {v : Option VSData}
    (hp : res.Pairwise (fun p q => distinctHeld p.2 q.2))
    (hv : ∀ p ∈ res, distinctHeld p.2 v) :
    (dictSet res k v).Pairwise (fun p q => distinctHeld p.2 q.2) := by
  induction res with
  | nil =>
    rw [dictSet]
    exact List.pairwise_singleton _ _
  | cons a rest ih =>
    rw [List.pairwise_cons] at hp
    by_cases ha : a.1 = k
    · rw [dictSet, if_pos ha, List.pairwise_cons]
      refine ⟨fun q hq => ?_, hp.2⟩
      exact distinctHeld_symm (hv q (List.mem_cons_of_mem _ hq))
    · rw [dictSet, if_neg ha, List.pairwise_cons]
      refine ⟨fun q hq => ?_,
        ih hp.2 (fun p hp2 => hv p (List.mem_cons_of_mem _ hp2))⟩
      rcases mem_dictSet hq with h2 | h2
      · exact hp.1 q h2
      · rw [h2]
        exact hv a (List.mem_cons_self _ _)

theorem resInv_dictSet {res : ResMap} {k : String} {v : Option VSData}
    (h : ResInv res) (hv : ∀ p ∈ res, distinctHeld p.2 v) :
    ResInv (dictSet res k v) :=
  ⟨nodup_keys_dictSet h.1, pairwise_dictSet h.2 hv⟩

theorem resInv_release {st : PabotState} {c : String} (h : ResInv st.ownerToValues) :
    ResInv (release_value_set st c).ownerToValues := by
  rw [release_value_set]
  exact resInv_dictSet h (fun p _ => distinctHeld_none)

theorem resInv_disable {st : PabotState} {s c : String} (h : ResInv st.ownerToValues) :
    ResInv (disable_value_set st s c).2.ownerToValues := by
  rw [disable_value_set_res]
  exact resInv_dictSet h (fun p _ => distinctHeld_none)

theorem resInv_acquire {st : PabotState} {c : String} {tags : List String}
    (h : ResInv st.ownerToValues) :
    ResInv (acquire_value_set st c tags).2.ownerToValues := by
  rw [acquire_value_set]
  split
  · exact h
  · split
    · exact h
    · split
      next kd heq =>
        have h2 : (scanSets st.ownerToValues tags st.values).2 = some kd := by
          rw [heq]
        rw [scanSets_assign] at h2
        have hpred := List.find?_some h2
        have hheld : heldBy st.ownerToValues kd.2 = false := by
          rcases Bool.and_eq_true_iff.mp hpred with ⟨_, hnb⟩
          (cases hh : heldBy st.ownerToValues kd.2 with
            | false => rfl
            | true => rw [hh] at hnb; exact absurd hnb (by decide))
        refine resInv_dictSet h (fun p hp => ?_)
        intro e dd hpe hdd
        cases hdd
        have := heldBy_eq_false_iff.mp hheld p hp e hpe
        exact dictBeq_symm_false this
      next heq => exact h
      next heq => exact h

theorem resInv_applyVOp {st : PabotState} (op : VOp) (h : ResInv st.ownerToValues) :
    ResInv (applyVOp st op).ownerToValues := by
  cases op with
  | acq c tags => exact resInv_acquire h
  | rel c => exact resInv_release h
  | dis s c => exact resInv_disable h

theorem resInv_runVOps (ops : List VOp) (st : PabotState) (h : ResInv st.ownerToValues) :
    ResInv (runVOps st ops).ownerToValues := by
  induction ops generalizing st with
  | nil => exact h
  | cons op rest ih => exact ih _ (resInv_applyVOp op h)

/-- Helper shared by several proofs: when the caller holds nothing and
the first pool entry that matches the tags and is not held exists, the
acquire assigns exactly that entry. -/
theorem acquire_assigns_of_find? {st : PabotState} {c k : String} {d : VSData}
    {tags : List String}
    (hres : hasReservation st.ownerToValues c = false)
    (hfind : st.values.find? (fun p => tagsMatch p.2 tags && !heldBy st.ownerToValues p.2)
      = some (k, d)) :
    acquire_value_set st c tags =
      (.assigned k d,
       { st with ownerToValues := dictSet st.ownerToValues c (some d) }) := by
  have hne : st.values.isEmpty = false := by
    cases hv : st.values with
    | nil => rw [hv] at hfind; exact absurd hfind (by simp)
    | cons a l => rfl
  have h2 : (scanSets st.ownerToValues tags st.values).2 = some (k, d) := by
    rw [scanSets_assign, hfind]
  cases hb : (scanSets st.ownerToValues tags st.values).1 with
  | false =>
    have hsc : scanSets st.ownerToValues tags st.values = (false, some (k, d)) :=
      Prod.ext hb h2
    simp [acquire_value_set, hne, hres, hsc]
  | true =>
    have hsc : scanSets st.ownerToValues tags st.values = (true, some (k, d)) :=
      Prod.ext hb h2
    simp [acquire_value_set, hne, hres, hsc]

/-- C4: at every state reachable from a parsed configuration by pool
operations, at most one caller holds a given value set (held data
dictionaries of different callers are never equal) and each caller holds
at most one set; after `release_value_set` the released set is
immediately eligible and is assigned by a subsequent acquire. -/
theorem C4_reservation_uniqueness
    (sections : List (String × List (String × String))) (ops : List VOp) :
    PoolUniqueAndRelease (runVOps (initState sections) ops) := by
  have hinv : ResInv (runVOps (initState sections) ops).ownerToValues :=
    resInv_runVOps ops _ ⟨List.nodup_nil, List.Pairwise.nil⟩
  have hsymm : Symmetric (fun p q : String × Option VSData => distinctHeld p.2 q.2) :=
    fun p q h => distinctHeld_symm h
  refine ⟨hinv.1, ?_, ?_⟩
  · intro c1 c2 d1 d2 hne h1 h2
    have m1 := mem_of_dictGet? h1
    have m2 := mem_of_dictGet? h2
    have hR := hinv.2.forall hsymm m1 m2
      (fun he => hne (congrArg Prod.fst he))
    exact hR d1 d2 rfl rfl
  · intro c d hres
    have hm := mem_of_dictGet? hres
    have hheld : heldBy
        (release_value_set (runVOps (initState sections) ops) c).ownerToValues d
          = false := by
      rw [release_value_set]
      rw [heldBy_eq_false_iff]
      intro p hp e he
      rcases mem_dictSet_nodup hinv.1 hp with h2 | ⟨hmem, hkey⟩
      · rw [h2] at he
        exact absurd he (by simp)
      · have hR := hinv.2.forall hsymm hm hmem
          (fun heq => hkey (by rw [← heq]))
        exact hR d e rfl he
    refine ⟨hheld, ?_⟩
    intro c2 k tags hres2 hfind
    have hfind2 := @find?_and_of_find? _ _
      (fun p : String × VSData => tagsMatch p.2 tags)
      (fun p : String × VSData =>
        !heldBy (release_value_set (runVOps (initState sections) ops) c).ownerToValues p.2)
      (k, d) hfind (by simp [hheld])
    rw [acquire_assigns_of_find? hres2 hfind2]

/-- Witness for C4 at a concrete reachable state: w1 acquires the only
set and releases it, after which w2 acquires it. -/
theorem C4_reservation_uniqueness_witness :
    heldBy
      (release_value_set
        (runVOps (initState [("A", [("key", "v")])]) [VOp.acq "w1" []]) "w1").ownerToValues
      (parseData [("key", "v")]) = false ∧
    (acquire_value_set
      (release_value_set
        (runVOps (initState [("A", [("key", "v")])]) [VOp.acq "w1" []]) "w1")
      "w2" []).1 = .assigned "A" (parseData [("key", "v")]) := by
  have h := C4_reservation_uniqueness [("A", [("key", "v")])] [VOp.acq "w1" []]
  have h3 := h.2.2 "w1" (parseData [("key", "v")]) (by decide)
  exact ⟨h3.1, h3.2 "w2" "A" [] (by decide) (by decide)⟩
